import Mathlib

/-!
# Verification of the `hgt_analysis` utility scripts

A shallow embedding, in Lean 4, of the behaviour-relevant parts of the four
Python scripts of the repository:

* `compute_accuracy.py`  — precision / recall / F-score against a ground truth;
* `parse_output.py`      — per-tool extraction of an HGT count from tool logs;
* `reformat_input.py`    — reformatting of gene/species trees for HGT tools.

Modelling conventions, used throughout:

* Python strings are Lean `String`s; the handful of Python string methods the
  scripts use (`strip`, `split`, `startswith`, substring `in`, `int(...)`)
  are re-implemented below, structurally recursively, so that all definitions
  evaluate inside the kernel (`decide`/`rfl`).
* Fallible Python code (raised exceptions) is modelled with `Except String`
  or with an explicit `Option String` error component; the error strings name
  the Python exception raised.
* The scripts run under Python 2; `tp / float(tp + fp)` is float division of
  small integers.  Floats are idealised as exact rationals, represented as
  *unnormalised* numerator/denominator pairs of naturals (`Frac` below); all
  values arising here are non-negative.  `%.2f` formatting is modelled as
  round-half-to-even to hundredths on the exact rational value.  This agrees
  with IEEE double behaviour on all concrete values appearing in the claims.
* Standard output is modelled as the list (or concatenation) of the strings
  written to it.
-/

set_option autoImplicit false

namespace Hgt

/-! ## Python string primitives -/

/-- The characters Python `str.strip()` / `str.split()` treat as whitespace
(the ASCII ones; the scripts only handle ASCII data). -/
def isPyWs (c : Char) : Bool :=
  c == ' ' || c == '\t' || c == '\n' || c == '\r' || c == '\x0b' || c == '\x0c'

/-- Python `s.strip()`: remove leading and trailing whitespace. -/
def pyStrip (s : String) : String :=
  ⟨((s.data.dropWhile isPyWs).reverse.dropWhile isPyWs).reverse⟩

/-- Helper for `pySplitWs`: split a character list on runs of whitespace,
accumulating the current (reversed) token. -/
def pySplitWsAux : List Char → List Char → List (List Char)
  | [], [] => []
  | [], cur => [cur.reverse]
  | c :: cs, cur =>
    if isPyWs c then
      match cur with
      | [] => pySplitWsAux cs []
      | _ => cur.reverse :: pySplitWsAux cs []
    else pySplitWsAux cs (c :: cur)

/-- Python `s.split()` (no argument): split on runs of whitespace, with no
empty strings in the result. -/
def pySplitWs (s : String) : List String :=
  (pySplitWsAux s.data []).map (fun l => ⟨l⟩)

/-- Helper for `pySplit`: split a character list on a fixed non-empty
separator, left to right, non-overlapping.  `fuel` bounds the recursion
(structural recursion, so that the kernel can evaluate it); one unit of fuel
is spent per examined character, so `fuel = length of the list` suffices. -/
def pySplitAux (sep : List Char) : Nat → List Char → List Char → List (List Char)
  | _, [], cur => [cur.reverse]
  | 0, l, cur => [cur.reverse ++ l]
  | fuel + 1, c :: cs, cur =>
    if sep.isPrefixOf (c :: cs) then
      cur.reverse :: pySplitAux sep fuel (List.drop sep.length (c :: cs)) []
    else pySplitAux sep fuel cs (c :: cur)

/-- Python `s.split(sep)` for a non-empty separator `sep` (Python raises
`ValueError` on an empty separator; every separator used by the scripts is a
fixed non-empty literal, so that case is modelled as the identity split). -/
def pySplit (sep s : String) : List String :=
  if sep.data.isEmpty then [s]
  else (pySplitAux sep.data s.data.length s.data []).map (fun l => ⟨l⟩)

/-- Python `sub in s`: substring containment. -/
def pyIn (sub s : String) : Bool :=
  go sub.data s.data
where
  /-- Check `sep.isPrefixOf` at every suffix. -/
  go (sub : List Char) : List Char → Bool
    | [] => sub.isEmpty
    | c :: cs => sub.isPrefixOf (c :: cs) || go sub cs

/-- Python `s.startswith(p)`. -/
def pyStartsWith (p s : String) : Bool :=
  p.data.isPrefixOf s.data

/-- Python `s[:-n]` for `n ≥ 1`: drop the last `n` characters (empty result
when `n ≥ len(s)`). -/
def pyDropRight (s : String) (n : Nat) : String :=
  ⟨s.data.take (s.data.length - n)⟩

/-- Helper for `pyInt`: decimal value of a digit list, `none` on the first
non-digit character. -/
def digitsValAux : List Char → Nat → Option Nat
  | [], acc => some acc
  | c :: cs, acc =>
    if c.isDigit then digitsValAux cs (10 * acc + (c.toNat - 48)) else none

/-- Python `int(s)`: strip whitespace, optional sign, decimal digits;
anything else raises `ValueError`.  (Python 3.6 underscore separators are not
modelled; the detection tables hold plain decimal flags.) -/
def pyInt (s : String) : Except String Int :=
  let t := (pyStrip s).data
  match t with
  | '-' :: ds =>
    match ds, digitsValAux ds 0 with
    | _ :: _, some n => .ok (-(n : Int))
    | _, _ => .error "ValueError: invalid literal for int()"
  | '+' :: ds =>
    match ds, digitsValAux ds 0 with
    | _ :: _, some n => .ok (n : Int)
    | _, _ => .error "ValueError: invalid literal for int()"
  | ds =>
    match ds, digitsValAux ds 0 with
    | _ :: _, some n => .ok (n : Int)
    | _, _ => .error "ValueError: invalid literal for int()"

/-! ## Exact non-negative fractions (the float idealisation) -/

/-- An unnormalised non-negative fraction `num / den`.  Models the Python
float values `tp / float(tp + fp)` etc. exactly. -/
abbrev Frac := Nat × Nat

/-- Fraction addition (unnormalised). -/
def fadd (a b : Frac) : Frac := (a.1 * b.2 + b.1 * a.2, a.2 * b.2)

/-- Fraction multiplication (unnormalised). -/
def fmul (a b : Frac) : Frac := (a.1 * b.1, a.2 * b.2)

/-- Fraction division (unnormalised). -/
def fdiv (a b : Frac) : Frac := (a.1 * b.2, a.2 * b.1)

/-- Round `N / d` (with `d > 0`) to the nearest integer, ties to even —
the rounding used by `%.2f` formatting. -/
def roundHalfEven (N d : Nat) : Nat :=
  let q := N / d
  let r := N % d
  if 2 * r < d then q
  else if d < 2 * r then q + 1
  else if q % 2 = 0 then q else q + 1

/-- Python `"%.2f" % x` for a non-negative fraction `x`: the value rounded to
two decimal places (half to even), rendered with exactly two fractional
digits. -/
def fmtF2 (x : Frac) : String :=
  let h := roundHalfEven (100 * x.1) x.2
  toString (h / 100) ++ "." ++
    (if h % 100 < 10 then "0" ++ toString (h % 100) else toString (h % 100))

/-! ## `compute_accuracy.py` -/

/-- A ground-truth transfer record: (organism donor, gene donated, organism
recipient, gene received) — `compute_accuracy.py`, `parse_expected_transfers`. -/
abbrev Transfer := String × String × String × String

/-- Lines 100–103 of `compute_accuracy.py`: `exp_s` is the set of donated
genes (`tup[1]`) of the expected transfers. -/
def expectedGenes (expected : List Transfer) : Finset String :=
  (expected.map (fun t => t.2.1)).toFinset

/-- One line of `compute_accuracy` output:
`"%s\t%.2f\t%.2f\t%.2f\n" % (tool, p, r, f)`. -/
def metric_line (tool : String) (p r f : Frac) : String :=
  tool ++ "\t" ++ fmtF2 p ++ "\t" ++ fmtF2 r ++ "\t" ++ fmtF2 f ++ "\n"

/-- The per-tool loop of `compute_accuracy` (lines 104–114 of
`compute_accuracy.py`).  Returns the list of lines written to stdout together
with `some "ZeroDivisionError"` if the loop aborted on a zero denominator
(`none` if it ran to completion).  Tools are processed in the iteration order
of `observed_transfers` (Python dicts preserve insertion order); a tool with
an empty detection set is skipped (`if not obs_s: continue`). -/
def accuracy_loop (exp_s : Finset String) :
    List (String × List String) → List String × Option String
  | [] => ([], none)
  | (tool, genes) :: rest =>
    let obs_s : Finset String := genes.toFinset
    if obs_s = ∅ then accuracy_loop exp_s rest
    else
      let tp := (obs_s ∩ exp_s).card
      let fp := (obs_s \ exp_s).card
      let fn := (exp_s \ obs_s).card
      -- p = tp / float(tp + fp)
      if tp + fp = 0 then ([], some "ZeroDivisionError") else
      let p : Frac := (tp, tp + fp)
      -- r = tp / float(tp + fn)
      if tp + fn = 0 then ([], some "ZeroDivisionError") else
      let r : Frac := (tp, tp + fn)
      -- f = float(2 * p * r) / float(p + r)
      if (fadd p r).1 = 0 then ([], some "ZeroDivisionError") else
      let f : Frac := fdiv (fmul (fmul (2, 1) p) r) (fadd p r)
      let res := accuracy_loop exp_s rest
      (metric_line tool p r f :: res.1, res.2)

/-- `compute_accuracy(expected_transfers, observed_transfers)`
(`compute_accuracy.py`, lines 87–114). -/
def compute_accuracy (expected : List Transfer)
    (observed : List (String × List String)) : List String × Option String :=
  accuracy_loop (expectedGenes expected) observed

/-- Spec side (§4.4 contract, claim C1): the output line computed for one
tool of the detection summary — `none` (no line) when the detected set is
empty, otherwise the tab-separated tool name, precision `tp/(tp+fp)`, recall
`tp/(tp+fn)` and F1 `2·p·r/(p+r)`, each rounded to two decimals, where
`tp = |detected ∩ expected|`, `fp = |detected − expected|`,
`fn = |expected − detected|`. -/
def accuracy_spec_line (exp_s : Finset String) (entry : String × List String) :
    Option String :=
  let obs_s : Finset String := entry.2.toFinset
  if obs_s = ∅ then none
  else
    let tp := (obs_s ∩ exp_s).card
    let fp := (obs_s \ exp_s).card
    let fn := (exp_s \ obs_s).card
    let p : Frac := (tp, tp + fp)
    let r : Frac := (tp, tp + fn)
    some (metric_line entry.1 p r (fdiv (fmul (fmul (2, 1) p) r) (fadd p r)))

/-- The zero-denominator edge condition of §4.4/§9 for one tool: the
detected set is non-empty (so the tool is not skipped) and one of the three
denominators `tp+fp`, `tp+fn`, `p+r` is zero. -/
def zero_denominator (exp_s : Finset String) (entry : String × List String) : Prop :=
  let obs_s : Finset String := entry.2.toFinset
  obs_s ≠ ∅ ∧
    (let tp := (obs_s ∩ exp_s).card
     let fp := (obs_s \ exp_s).card
     let fn := (exp_s \ obs_s).card
     tp + fp = 0 ∨ tp + fn = 0 ∨ (fadd (tp, tp + fp) (tp, tp + fn)).1 = 0)

instance (exp_s : Finset String) (entry : String × List String) :
    Decidable (zero_denominator exp_s entry) := by
  unfold zero_denominator
  infer_instance

instance {ε α : Type} [DecidableEq ε] [DecidableEq α] : DecidableEq (Except ε α) :=
  fun a b =>
    match a, b with
    | .ok x, .ok y =>
      if h : x = y then isTrue (congrArg Except.ok h)
      else isFalse (fun c => h (Except.ok.inj c))
    | .error x, .error y =>
      if h : x = y then isTrue (congrArg Except.error h)
      else isFalse (fun c => h (Except.error.inj c))
    | .ok _, .error _ => isFalse (fun c => Except.noConfusion c)
    | .error _, .ok _ => isFalse (fun c => Except.noConfusion c)

/-! ## `compute_accuracy.py`: `parse_observed_transfers` -/

/-- Python dict membership `k in tools` for the insertion-ordered dict,
modelled as an association list. -/
def hasKey (m : List (String × List String)) (k : String) : Bool :=
  match m with
  | [] => false
  | p :: rest => if p.1 = k then true else hasKey rest k

/-- Python `tools[k].append(v)` (the key is present in every reachable call;
a missing key would be a `KeyError`, checked at the call site). -/
def dictAppend (m : List (String × List String)) (k v : String) :
    List (String × List String) :=
  match m with
  | [] => []
  | p :: rest => (if p.1 = k then (p.1, p.2 ++ [v]) else p) :: dictAppend rest k v

/-- The mutable state of `parse_observed_transfers`: the dict `tools` and the
column-order list `tools_id`. -/
structure ObsState where
  tools : List (String × List String)
  tools_id : List String
deriving DecidableEq

/-- Header-row handling (lines 72–77 of `compute_accuracy.py`): for each
tool column label, append it to `tools_id` and add an empty dict entry if the
tool is new. -/
def obsHeader : List String → ObsState → ObsState
  | [], st => st
  | tool :: rest, st =>
    obsHeader rest
      { tools_id := st.tools_id ++ [tool]
        tools := if hasKey st.tools tool then st.tools
                 else st.tools ++ [(tool, [])] }

/-- Data-row flag handling (lines 79–83 of `compute_accuracy.py`): for the
`i`-th flag column, record `gene_id` under tool `tools_id[i]` exactly when
`int(hgt_num) > 0`.  A non-integer flag raises `ValueError`; a flag column
beyond `tools_id` raises `IndexError` (only when its flag is positive, since
`tools_id[i]` is evaluated inside the `if`). -/
def obsFlags : List String → Nat → String → ObsState → Except String ObsState
  | [], _, _, st => .ok st
  | hgt_num :: rest, i, gene_id, st =>
    match pyInt hgt_num with
    | .error e => .error e
    | .ok n =>
      if 0 < n then
        match st.tools_id.get? i with
        | none => .error "IndexError: list index out of range"
        | some tool =>
          if hasKey st.tools tool then
            obsFlags rest (i + 1) gene_id
              { st with tools := dictAppend st.tools tool gene_id }
          else .error "KeyError"
      else obsFlags rest (i + 1) gene_id st

/-- One line of the summary table (lines 70–83 of `compute_accuracy.py`):
strip, split on tabs; a line whose first field starts with `#` is a header
row, otherwise a data row whose second field is the gene id. -/
def obsLine (st : ObsState) (line : String) : Except String ObsState :=
  let fields := pySplit "\t" (pyStrip line)
  if pyStartsWith "#" (fields.headD "") then .ok (obsHeader (fields.drop 2) st)
  else
    match fields.get? 1 with
    | none => .error "IndexError: list index out of range"
    | some gene_id => obsFlags (fields.drop 2) 0 gene_id st

/-- The `for line in observed_hgts_f` loop: process every line in order,
aborting on the first raised exception. -/
def obsLines : List String → ObsState → Except String ObsState
  | [], st => .ok st
  | line :: rest, st =>
    match obsLine st line with
    | .error e => .error e
    | .ok st2 => obsLines rest st2

/-- `parse_observed_transfers(observed_hgts_f)` (lines 46–84 of
`compute_accuracy.py`): `next(...)` skips the first line unconditionally
(raising `StopIteration` on an empty file), then every remaining line is
processed by `obsLine`; the result is the dict `tools`. -/
def parse_observed_transfers (lines : List String) :
    Except String (List (String × List String)) :=
  match lines with
  | [] => .error "StopIteration"
  | _ :: rest =>
    match obsLines rest { tools := [], tools_id := [] } with
    | .error e => .error e
    | .ok st => .ok st.tools

/-- Spec side (claim C10): tool column `j` detects the gene of a data row
exactly when the row's `j`-th flag string parses to an integer strictly
greater than zero — so any positive integer counts, and `0` or a negative
integer does not. -/
def detects (flags : List String) (j : Nat) : Bool :=
  match flags.get? j with
  | none => false
  | some fl =>
    match pyInt fl with
    | .error _ => false
    | .ok n => decide (0 < n)

/-- Spec side (claim C10): the tools dict described by the claim, keyed in
column order: the tool at column index `j` (columns counted from `j0`) maps
to `vals j`. -/
def specToolsFrom (vals : Nat → List String) : Nat → List String → List (String × List String)
  | _, [] => []
  | j, t :: ts => (t, vals j) :: specToolsFrom vals (j + 1) ts

/-- Spec side (claim C10): the gene id and flag columns of a data row — the
second field and the fields from the third on. -/
def rowOf (line : String) : String × List String :=
  let fields := pySplit "\t" (pyStrip line)
  (fields.getD 1 "", fields.drop 2)

/-- Spec side (claim C10): the genes whose rows carry a positive flag in
column `j`, in row order. -/
def detectedGenes (rows : List (String × List String)) (j : Nat) : List String :=
  rows.filterMap (fun r => if detects r.2 j then some r.1 else none)

/-- Spec side (claim C10): the full detection summary described by the
claim: each tool of the header, in column order, mapped to the genes of the
data rows whose flag in that tool's column is a positive integer. -/
def observed_spec (toolNames : List String) (rows : List (String × List String)) :
    List (String × List String) :=
  specToolsFrom (detectedGenes rows) 0 toolNames

/-- Well-formedness of one data row of the summary table: the first field is
no `#`-comment, there is one flag field per tool after the two id fields,
and every flag parses as an integer. -/
def obs_line_ok (nTools : Nat) (line : String) : Prop :=
  let fields := pySplit "\t" (pyStrip line)
  pyStartsWith "#" (fields.headD "") = false
  ∧ fields.length = 2 + nTools
  ∧ ∀ fl ∈ fields.drop 2, (pyInt fl).isOk = true

instance (n : Nat) (line : String) : Decidable (obs_line_ok n line) := by
  unfold obs_line_ok
  infer_instance

/-! ## `parse_output.py` -/

/-- The T-REX anchor (line 26 of `parse_output.py`). -/
def trex_anchor : String := "hgt : number of HGT(s) found = "

/-- `line.split(string)[1].strip()` (line 30 of `parse_output.py`); only
evaluated under the guard `string in line`, which guarantees the split has a
second element, so the default of `getD` is unreachable. -/
def trex_extract (line : String) : String :=
  pyStrip ((pySplit trex_anchor line).getD 1 "")

/-- The loop of `parse_trex` (lines 27–32): accumulated stdout and the
`out_str` flag. -/
def parse_trex_loop : List String → String → Bool → String × Bool
  | [], out, flag => (out, flag)
  | line :: rest, out, flag =>
    if pyIn trex_anchor line then
      parse_trex_loop rest (out ++ trex_extract line) true
    else parse_trex_loop rest out flag

/-- `parse_trex(input_f)` (lines 18–34 of `parse_output.py`): everything
written to stdout. -/
def parse_trex (lines : List String) : String :=
  let res := parse_trex_loop lines "" false
  if res.2 then res.1 else "NaN"

/-- The loop of `parse_rangerdtl` (lines 45–51 of `parse_output.py`).  The
anchor is `"The minimum reconciliation cost is: "` but the extraction splits
on `"Transfers: "`, whose absence on an anchor line raises `IndexError`;
`split(",")[0]` is always defined since a split is never empty. -/
def parse_rangerdtl_loop : List String → String → Bool → Except String (String × Bool)
  | [], out, flag => .ok (out, flag)
  | line :: rest, out, flag =>
    if pyIn "The minimum reconciliation cost is: " line then
      match (pySplit "Transfers: " line).get? 1 with
      | none => .error "IndexError: list index out of range"
      | some s =>
        parse_rangerdtl_loop rest (out ++ (pySplit "," s).headD "") true
    else parse_rangerdtl_loop rest out flag

/-- `parse_rangerdtl(input_f)` (lines 37–53 of `parse_output.py`). -/
def parse_rangerdtl (lines : List String) : Except String String := do
  let res ← parse_rangerdtl_loop lines "" false
  .ok (if res.2 then res.1 else "NaN")

/-- The RIATA-HGT anchor (line 64 of `parse_output.py`). -/
def riatahgt_anchor : String := "There are "

/-- `line.split(string)[1].split(" component(s)")[0]` (line 68), evaluated
under the guard `string in line`. -/
def riatahgt_extract (line : String) : String :=
  (pySplit " component(s)" ((pySplit riatahgt_anchor line).getD 1 "")).headD ""

/-- The loop of `parse_riatahgt` (lines 65–70). -/
def parse_riatahgt_loop : List String → String → Bool → String × Bool
  | [], out, flag => (out, flag)
  | line :: rest, out, flag =>
    if pyIn riatahgt_anchor line then
      parse_riatahgt_loop rest (out ++ riatahgt_extract line) true
    else parse_riatahgt_loop rest out flag

/-- `parse_riatahgt(input_f)` (lines 56–72 of `parse_output.py`). -/
def parse_riatahgt (lines : List String) : String :=
  let res := parse_riatahgt_loop lines "" false
  if res.2 then res.1 else "NaN"

/-- The Jane 4 anchor (line 83 of `parse_output.py`). -/
def jane4_anchor : String := "Host Switch: "

/-- `line.split(string)[1].strip()` (line 87), evaluated under the guard
`string in line`. -/
def jane4_extract (line : String) : String :=
  pyStrip ((pySplit jane4_anchor line).getD 1 "")

/-- The loop of `parse_jane4` (lines 84–89). -/
def parse_jane4_loop : List String → String → Bool → String × Bool
  | [], out, flag => (out, flag)
  | line :: rest, out, flag =>
    if pyIn jane4_anchor line then
      parse_jane4_loop rest (out ++ jane4_extract line) true
    else parse_jane4_loop rest out flag

/-- `parse_jane4(input_f)` (lines 75–91 of `parse_output.py`). -/
def parse_jane4 (lines : List String) : String :=
  let res := parse_jane4_loop lines "" false
  if res.2 then res.1 else "NaN"

/-- Outcome of one invocation of the `_main` dispatch of `parse_output.py`:
either some text written to stdout, or an uncaught exception, or silent
termination with nothing written. -/
inductive MainResult where
  | output (s : String)
  | exn (e : String)
  | noOutput
deriving DecidableEq

/-- The `if/elif` dispatch of `_main` (lines 120–130 of `parse_output.py`).
Exactly four of the eleven `click.Choice` identifiers reach an implemented
parser; `consel` reaches `parse_consel(input_f=input_f)`, and `parse_consel`
is defined nowhere in the module, so that call raises `NameError`; the other
six identifiers match no branch and the function returns silently. -/
def parse_output_main (method : String) (lines : List String) : MainResult :=
  if method = "ranger-dtl" then
    match parse_rangerdtl lines with
    | .ok s => .output s
    | .error e => .exn e
  else if method = "trex" then .output (parse_trex lines)
  else if method = "riata-hgt" then .output (parse_riatahgt lines)
  else if method = "jane4" then .output (parse_jane4 lines)
  else if method = "consel" then .exn "NameError: name parse_consel is not defined"
  else .noOutput

/-- The eleven tool identifiers of the `click.Choice` enumeration
(lines 100–105 of `parse_output.py`, identical in `reformat_input.py`). -/
def methodChoices : List String :=
  ["trex", "ranger-dtl", "riata-hgt", "consel", "darkhorse", "wn-svm",
   "genemark", "hgtector", "distance-method", "jane4", "tree-puzzle"]

/-! ## `reformat_input.py` -/

mutual
/-- An skbio `TreeNode`: a name (possibly `None`), a branch length (possibly
`None`, floats idealised as rationals; no claim depends on lengths), and an
ordered forest of children. -/
inductive Tree where
  | node (name : Option String) (length : Option Rat) (children : Forest)
deriving DecidableEq
/-- An ordered list of child subtrees (a separate inductive so that all tree
functions are structurally recursive and kernel-evaluable). -/
inductive Forest where
  | nil
  | cons (hd : Tree) (tl : Forest)
deriving DecidableEq
end

/-- The name of the root node. -/
def Tree.name : Tree → Option String
  | .node n _ _ => n

/-- The children of the root node. -/
def Tree.children : Tree → Forest
  | .node _ _ cs => cs

mutual
/-- The tips of a subtree, the subtree's root included when it is childless
(helper for `Tree.tips`). -/
def Tree.tipsIncl : Tree → List Tree
  | .node n l .nil => [.node n l .nil]
  | .node _ _ (.cons c cs) => Forest.tipsF (.cons c cs)
/-- Tips of every tree of a forest, in order. -/
def Forest.tipsF : Forest → List Tree
  | .nil => []
  | .cons c cs => c.tipsIncl ++ cs.tipsF
end

/-- skbio `tree.tips()`: the childless descendants of the root, left to
right, the root itself excluded. -/
def Tree.tips : Tree → List Tree
  | .node _ _ cs => cs.tipsF

/-- The names of the tips, in `tips()` order. -/
def Tree.tipNames (t : Tree) : List (Option String) :=
  t.tips.map Tree.name

/-- `node.name.split()[0]` (line 62 of `reformat_input.py`): the first
whitespace-separated token of a leaf label; `IndexError` when the label has
no token (empty or all-whitespace label). -/
def trim_leaf_label (name : String) : Except String String :=
  match pySplitWs name with
  | [] => .error "IndexError: list index out of range"
  | tok :: _ => .ok tok

mutual
/-- Trimming applied to every tip of a subtree, the subtree's own root
included when childless (helper: the top-level call goes through
`trim_gene_tree_leaves`, which leaves a childless root untouched, since
`tips()` excludes self). -/
def Tree.trimTips : Tree → Except String Tree
  | .node name len .nil =>
    match name with
    | none => .error "AttributeError: NoneType object has no attribute split"
    | some nm => do
      let tok ← trim_leaf_label nm
      .ok (.node (some tok) len .nil)
  | .node name len (.cons c cs) => do
    let cs2 ← Forest.trimTipsF (.cons c cs)
    .ok (.node name len cs2)
/-- `Tree.trimTips` over a forest, left to right (the first failing tip
determines the raised exception, as in the Python loop). -/
def Forest.trimTipsF : Forest → Except String Forest
  | .nil => .ok .nil
  | .cons c cs => do
    let c2 ← c.trimTips
    let cs2 ← cs.trimTipsF
    .ok (.cons c2 cs2)
end

/-- `trim_gene_tree_leaves(gene_tree)` (lines 49–62 of `reformat_input.py`):
replace every tip's name by its first whitespace token.  (The docstring says
"Remove `_GENENAME`", but `str.split()` with no argument splits on
whitespace, not on `_`; skbio's Newick reader has already turned underscores
into spaces by the time this runs.) -/
def trim_gene_tree_leaves : Tree → Except String Tree
  | .node name len cs => do
    let cs2 ← Forest.trimTipsF cs
    .ok (.node name len cs2)

/-- Python `%s` rendering of a dict key that may be `None`. -/
def pyStr : Option String → String
  | none => "None"
  | some s => s

/-- Dict membership for the species→genes mapping (keys may be `None`, as a
Python dict key). -/
def hasKeyO (m : List (Option String × List String)) (k : Option String) : Bool :=
  match m with
  | [] => false
  | p :: rest => if p.1 = k then true else hasKeyO rest k

/-- `mapping_leaves[k].append(v)` for the species→genes mapping. -/
def dictAppendO (m : List (Option String × List String)) (k : Option String)
    (v : String) : List (Option String × List String) :=
  match m with
  | [] => []
  | p :: rest => (if p.1 = k then (p.1, p.2 ++ [v]) else p) :: dictAppendO rest k v

/-- First loop of `species_gene_mapping` (lines 94–99 of
`reformat_input.py`): add every species tip name as a key with an empty
list, raising `ValueError` on a repeated name. -/
def addSpeciesTips : List (Option String) → List (Option String × List String) →
    Except String (List (Option String × List String))
  | [], m => .ok m
  | n :: rest, m =>
    if hasKeyO m n then
      .error ("ValueError: Species tree leaves must be uniquely labeled: " ++ pyStr n)
    else addSpeciesTips rest (m ++ [(n, [])])

/-- Second loop of `species_gene_mapping` (lines 100–106 of
`reformat_input.py`): `species, gene = node.name.split()` raises
`ValueError` unless the label splits into exactly two tokens (and
`AttributeError` on an unnamed tip); a species token that is no key raises
`ValueError`.  NOTE the bug on line 103: the loop appends `species` to
`mapping_leaves[species]` — not `gene` — although the docstring says
"gene tips are the values". -/
def addGeneTips : List (Option String) → List (Option String × List String) →
    Except String (List (Option String × List String))
  | [], m => .ok m
  | none :: _, _ => .error "AttributeError: NoneType object has no attribute split"
  | some nm :: rest, m =>
    match pySplitWs nm with
    | [species, gene] =>
      if hasKeyO m (some species) then
        let _ := gene   -- `gene` is never used by the source (the line-103 bug)
        addGeneTips rest (dictAppendO m (some species) species)
      else
        .error ("ValueError: Species " ++ species ++ " does not exist in the species tree")
    | _ => .error "ValueError: too many values to unpack"

/-- `species_gene_mapping(gene_tree, species_tree)` (lines 65–108 of
`reformat_input.py`). -/
def species_gene_mapping (gene_tree species_tree : Tree) :
    Except String (List (Option String × List String)) :=
  match addSpeciesTips species_tree.tipNames [] with
  | .error e => .error e
  | .ok m => addGeneTips gene_tree.tipNames m

/-- The mapping-string construction of `reformat_jane4` (lines 244–246 and
254–260 of `reformat_input.py`): build `species_gene_mapping`, then
concatenate `"%s%s:%s, " % (mapping_str, species, gene)` over the dict in
insertion order, and drop the final two characters (`mapping_str[:-2]`). -/
def jane4_mapping_str (gene_tree species_tree : Tree) : Except String String :=
  match species_gene_mapping gene_tree species_tree with
  | .error e => .error e
  | .ok mapping =>
    let s := mapping.foldl
      (fun acc kv => kv.2.foldl (fun a g => a ++ pyStr kv.1 ++ ":" ++ g ++ ", ") acc) ""
    .ok (pyDropRight s 2)

/-- `reformat_trex(gene_tree, species_tree, output_tree_fp)` (lines 144–174
of `reformat_input.py`).  After `trim_gene_tree_leaves(gene_tree)`,
`mkstemp()` binds `tmp_fp, abs_path` and `str(gene_tree)` is written to
`abs_path`; the next statement is
`join_trees(tmp_gene_tree, species_tree, output_tree_fp)` and the final one
`remove(tmp_gene_tree_fp)` — but neither `tmp_gene_tree` nor
`tmp_gene_tree_fp` is defined anywhere in the module, so every invocation
that survives trimming raises `NameError` before joining the trees, and the
temporary file is never removed. -/
def reformat_trex (gene_tree species_tree : Tree) (output_tree_fp : String) :
    Except String Unit := do
  let _trimmed ← trim_gene_tree_leaves gene_tree
  let _ := species_tree
  let _ := output_tree_fp
  .error "NameError: name tmp_gene_tree is not defined"

/-! ## Concrete scenario inputs (from the spec's §8 scenarios) -/

/-- Scenario 4's species tree: leaves `sp1`, `sp2`. -/
def scSpeciesTree : Tree :=
  .node none none
    (.cons (.node (some "sp1") none .nil)
      (.cons (.node (some "sp2") none .nil) .nil))

/-- Scenario 4's gene tree: leaves `sp1 g1`, `sp2 g2` (skbio's Newick reader
renders `sp1_g1` as `sp1 g1`). -/
def scGeneTree : Tree :=
  .node none none
    (.cons (.node (some "sp1 g1") none .nil)
      (.cons (.node (some "sp2 g2") none .nil) .nil))

/-- A species tree with the repeated leaf label `sp1`, `sp1`. -/
def dupSpeciesTree : Tree :=
  .node none none
    (.cons (.node (some "sp1") none .nil)
      (.cons (.node (some "sp1") none .nil) .nil))

/-- A gene tree whose leaf `sp9 g1` names a species absent from the
scenario species tree. -/
def unknownGeneTree : Tree :=
  .node none none (.cons (.node (some "sp9 g1") none .nil) .nil)

/-- A species tree with a single leaf `sp1`. -/
def oneSpeciesTree : Tree :=
  .node none none (.cons (.node (some "sp1") none .nil) .nil)

/-- A gene tree with a single leaf labelled `sp1` (one token only). -/
def oneTokenGeneTree : Tree :=
  .node none none (.cons (.node (some "sp1") none .nil) .nil)

/-- Concatenation of a list of strings (the stdout produced by a sequence of
`sys.stdout.write` calls). -/
def concatS : List String → String
  | [] => ""
  | s :: rest => s ++ concatS rest

/-! ## Helper lemmas -/

theorem str_append_assoc (a b c : String) : a ++ b ++ c = a ++ (b ++ c) := by
  cases a with
  | mk la =>
    cases b with
    | mk lb =>
      cases c with
      | mk lc =>
        show String.mk (la ++ lb ++ lc) = String.mk (la ++ (lb ++ lc))
        rw [List.append_assoc]

theorem str_append_nil (a : String) : a ++ "" = a := by
  cases a with
  | mk la =>
    show String.mk (la ++ []) = String.mk la
    rw [List.append_nil]

theorem str_nil_append (a : String) : "" ++ a = a := by
  cases a with
  | mk la =>
    show String.mk ([] ++ la) = String.mk la
    rw [List.nil_append]

/-- Every token produced by `pySplitWsAux` is non-empty and free of
whitespace, provided the accumulator is. -/
theorem pySplitWsAux_token_facts : ∀ (l cur : List Char),
    (∀ c ∈ cur, isPyWs c = false) →
    ∀ t ∈ pySplitWsAux l cur, t ≠ [] ∧ ∀ c ∈ t, isPyWs c = false := by
  intro l
  induction l with
  | nil =>
    intro cur hcur t ht
    cases cur with
    | nil => simp [pySplitWsAux] at ht
    | cons c cs =>
      simp only [pySplitWsAux, List.mem_singleton] at ht
      subst ht
      refine ⟨by simp, ?_⟩
      intro d hd
      exact hcur d (List.mem_reverse.mp hd)
  | cons c cs ih =>
    intro cur hcur t ht
    by_cases hw : isPyWs c = true
    · cases cur with
      | nil =>
        simp only [pySplitWsAux, hw, if_pos] at ht
        exact ih [] (by simp) t ht
      | cons d ds =>
        simp only [pySplitWsAux, hw, if_pos] at ht
        rcases List.mem_cons.mp ht with h1 | h2
        · subst h1
          refine ⟨by simp, ?_⟩
          intro e he
          exact hcur e (List.mem_reverse.mp he)
        · exact ih [] (by simp) t h2
    · rw [Bool.not_eq_true] at hw
      simp only [pySplitWsAux, hw] at ht
      refine ih (c :: cur) ?_ t ht
      intro e he
      rcases List.mem_cons.mp he with h1 | h2
      · subst h1; exact hw
      · exact hcur e h2

/-- On a whitespace-free character list, `pySplitWsAux` returns the
accumulator glued to the list as a single token. -/
theorem pySplitWsAux_all_nonws : ∀ (l cur : List Char),
    (∀ c ∈ l, isPyWs c = false) →
    pySplitWsAux l cur
      = if cur = [] ∧ l = [] then [] else [cur.reverse ++ l] := by
  intro l
  induction l with
  | nil =>
    intro cur _
    cases cur with
    | nil => simp [pySplitWsAux]
    | cons c cs => simp [pySplitWsAux]
  | cons c cs ih =>
    intro cur hl
    have hw : isPyWs c = false := hl c (List.mem_cons_self c cs)
    simp only [pySplitWsAux, hw, Bool.false_eq_true, if_false]
    rw [ih (c :: cur) (fun d hd => hl d (List.mem_cons_of_mem c hd))]
    simp [List.reverse_cons, List.append_assoc]

/-- The stdout/flag accumulator of the T-REX parsing loop, in closed form:
the extracts of all anchor-containing lines, in order. -/
theorem parse_trex_loop_spec (lines : List String) (out : String) (flag : Bool) :
    parse_trex_loop lines out flag
      = (out ++ concatS ((lines.filter (fun l => pyIn trex_anchor l)).map trex_extract),
         flag || !(lines.filter (fun l => pyIn trex_anchor l)).isEmpty) := by
  induction lines generalizing out flag with
  | nil => simp [parse_trex_loop, concatS, str_append_nil]
  | cons l rest ih =>
    by_cases h : pyIn trex_anchor l = true
    · simp only [parse_trex_loop, h, if_pos, List.filter_cons, ih, List.map_cons,
        concatS, List.isEmpty_cons, Bool.not_false, Bool.or_true, Bool.true_or]
      rw [str_append_assoc]
    · rw [Bool.not_eq_true] at h
      simp only [parse_trex_loop, h, Bool.false_eq_true, if_false, List.filter_cons, ih]

/-- When no processed tool hits a zero denominator, the accuracy loop
produces exactly one spec line per non-empty tool, in order, and no error. -/
theorem accuracy_loop_ok (exp_s : Finset String) :
    ∀ observed : List (String × List String),
      (∀ e ∈ observed, ¬ zero_denominator exp_s e) →
      accuracy_loop exp_s observed
        = (observed.filterMap (accuracy_spec_line exp_s), none) := by
  intro observed
  induction observed with
  | nil => intro _; simp [accuracy_loop]
  | cons e rest ih =>
    intro h
    obtain ⟨tool, genes⟩ := e
    have hrest := ih (fun e he => h e (List.mem_cons_of_mem _ he))
    have hhead := h _ (List.mem_cons_self _ _)
    by_cases hobs : (genes.toFinset : Finset String) = ∅
    · simp [accuracy_loop, List.filterMap_cons, accuracy_spec_line, hobs, hrest]
    · simp only [zero_denominator, ne_eq, not_and, not_or] at hhead
      obtain ⟨h1, h2, h3⟩ := hhead hobs
      have h1s := h1
      have h3s := h3
      simp only [Finset.card_inter_add_card_sdiff] at h1s h3s
      simp [accuracy_loop, List.filterMap_cons, accuracy_spec_line, hobs, h1, h1s, h2, h3,
        h3s, hrest]


theorem hasKeyO_append (m : List (Option String × List String))
    (e : Option String × List String) (k : Option String) :
    hasKeyO (m ++ [e]) k = (hasKeyO m k || decide (e.1 = k)) := by
  induction m with
  | nil => simp [hasKeyO]
  | cons p rest ih =>
    by_cases hp : p.1 = k
    · simp [hasKeyO, hp]
    · simp [hasKeyO, hp, ih]

theorem hasKeyO_dictAppendO (m : List (Option String × List String))
    (k : Option String) (v : String) (x : Option String) :
    hasKeyO (dictAppendO m k v) x = hasKeyO m x := by
  induction m with
  | nil => rfl
  | cons p rest ih =>
    by_cases hp : p.1 = k
    · simp [dictAppendO, hasKeyO, hp, ih]
    · simp [dictAppendO, hasKeyO, hp, ih]

theorem hasKeyO_map_empty : ∀ (l : List (Option String)) (x : Option String),
    hasKeyO (l.map (fun n => (n, []))) x = true ↔ x ∈ l := by
  intro l
  induction l with
  | nil => intro x; simp [hasKeyO]
  | cons n rest ih =>
    intro x
    by_cases hn : n = x
    · simp [hasKeyO, hn]
    · simp only [List.map_cons, hasKeyO, hn, Bool.false_eq_true, if_false, ih,
        List.mem_cons]
      constructor
      · exact Or.inr
      · rintro (h1 | h2)
        · exact absurd h1.symm hn
        · exact h2

/-- The key set of a successful `addSpeciesTips` run: the starting keys plus
the processed species labels. -/
theorem addSpeciesTips_ok_keys : ∀ (l : List (Option String))
    (m0 m : List (Option String × List String)),
    addSpeciesTips l m0 = .ok m →
    ∀ x, hasKeyO m x = true ↔ (hasKeyO m0 x = true ∨ x ∈ l) := by
  intro l
  induction l with
  | nil =>
    intro m0 m h x
    obtain rfl : m0 = m := Except.ok.inj h
    simp
  | cons n rest ih =>
    intro m0 m h x
    simp only [addSpeciesTips] at h
    by_cases hk : hasKeyO m0 n = true
    · rw [if_pos hk] at h
      exact absurd h (by simp)
    · rw [if_neg hk] at h
      rw [ih (m0 ++ [(n, [])]) m h x, hasKeyO_append]
      simp only [Bool.or_eq_true, decide_eq_true_eq, List.mem_cons]
      constructor
      · rintro (⟨h1 | h2⟩ | h3)
        · exact Or.inl h1
        · exact Or.inr (Or.inl h2.symm)
        · exact Or.inr (Or.inr h3)
      · rintro (h1 | h2 | h3)
        · exact Or.inl (Or.inl h1)
        · exact Or.inl (Or.inr h2.symm)
        · exact Or.inr h3

/-- `addSpeciesTips` raises when the species labels repeat, or when one of
them is already a key. -/
theorem addSpeciesTips_error : ∀ (l : List (Option String))
    (m : List (Option String × List String)),
    (¬ l.Nodup ∨ ∃ x ∈ l, hasKeyO m x = true) →
    ∃ e, addSpeciesTips l m = .error e := by
  intro l
  induction l with
  | nil =>
    intro m h
    rcases h with h1 | ⟨x, hx, _⟩
    · exact absurd List.nodup_nil h1
    · exact absurd hx (List.not_mem_nil x)
  | cons n rest ih =>
    intro m h
    by_cases hk : hasKeyO m n = true
    · exact ⟨"ValueError: Species tree leaves must be uniquely labeled: " ++ pyStr n,
        by simp [addSpeciesTips, hk]⟩
    · have step : addSpeciesTips (n :: rest) m = addSpeciesTips rest (m ++ [(n, [])]) := by
        simp [addSpeciesTips, hk]
      rw [step]
      apply ih
      rcases h with hnd | ⟨x, hx, hkey⟩
      · rw [List.nodup_cons] at hnd
        push_neg at hnd
        by_cases hmem : n ∈ rest
        · refine Or.inr ⟨n, hmem, ?_⟩
          rw [hasKeyO_append]
          simp
        · exact Or.inl (hnd hmem)
      · rcases List.mem_cons.mp hx with rfl | hx'
        · exact absurd hkey hk
        · refine Or.inr ⟨x, hx', ?_⟩
          rw [hasKeyO_append, hkey]
          simp

/-- `addSpeciesTips` succeeds on distinct fresh labels, appending one empty
entry per label. -/
theorem addSpeciesTips_ok : ∀ (l : List (Option String))
    (m : List (Option String × List String)),
    l.Nodup → (∀ x ∈ l, hasKeyO m x = false) →
    addSpeciesTips l m = .ok (m ++ l.map (fun n => (n, []))) := by
  intro l
  induction l with
  | nil => intro m _ _; simp [addSpeciesTips]
  | cons n rest ih =>
    intro m hnd hfresh
    have hk : hasKeyO m n = false := hfresh n (List.mem_cons_self n rest)
    rw [List.nodup_cons] at hnd
    have step : addSpeciesTips (n :: rest) m = addSpeciesTips rest (m ++ [(n, [])]) := by
      simp [addSpeciesTips, hk]
    rw [step, ih (m ++ [(n, [])]) hnd.2 ?_]
    · simp
    · intro x hx
      rw [hasKeyO_append, hfresh x (List.mem_cons_of_mem n hx)]
      simp only [Bool.false_or, decide_eq_false_iff_not]
      exact fun hc => hnd.1 (hc ▸ hx)

/-- `addGeneTips` raises when some gene label's species token is no key. -/
theorem addGeneTips_error : ∀ (names : List (Option String))
    (m : List (Option String × List String)) (sp g : String),
    (∃ nm, some nm ∈ names ∧ pySplitWs nm = [sp, g] ∧ hasKeyO m (some sp) = false) →
    ∃ e, addGeneTips names m = .error e := by
  intro names
  induction names with
  | nil =>
    intro m sp g ⟨nm, hmem, _, _⟩
    exact absurd hmem (List.not_mem_nil _)
  | cons n rest ih =>
    intro m sp g ⟨nm, hmem, hsplit, hkey⟩
    cases n with
    | none => exact ⟨_, rfl⟩
    | some h =>
      cases hs : pySplitWs h with
      | nil => exact ⟨"ValueError: too many values to unpack", by simp [addGeneTips, hs]⟩
      | cons a tl =>
        cases tl with
        | nil => exact ⟨"ValueError: too many values to unpack", by simp [addGeneTips, hs]⟩
        | cons b tl2 =>
          cases tl2 with
          | cons c tl3 =>
            exact ⟨"ValueError: too many values to unpack", by simp [addGeneTips, hs]⟩
          | nil =>
            by_cases hk : hasKeyO m (some a) = true
            · have step : addGeneTips (some h :: rest) m
                  = addGeneTips rest (dictAppendO m (some a) a) := by
                simp [addGeneTips, hs, hk]
              rw [step]
              apply ih _ sp g
              rcases List.mem_cons.mp hmem with heq | hmem'
              · obtain rfl : nm = h := Option.some.inj heq
                rw [hsplit] at hs
                obtain rfl : sp = a := (List.cons.inj hs).1
                exact absurd hk (by rw [hkey]; simp)
              · exact ⟨nm, hmem', hsplit, by rw [hasKeyO_dictAppendO]; exact hkey⟩
            · exact ⟨"ValueError: Species " ++ a ++ " does not exist in the species tree",
                by simp [addGeneTips, hs, hk]⟩

/-- `addGeneTips` succeeds when every label splits into two tokens whose
species token is a key. -/
theorem addGeneTips_ok : ∀ (names : List (Option String))
    (m : List (Option String × List String)),
    (∀ n ∈ names, ∃ nm sp g, n = some nm ∧ pySplitWs nm = [sp, g]
      ∧ hasKeyO m (some sp) = true) →
    ∃ m2, addGeneTips names m = .ok m2 := by
  intro names
  induction names with
  | nil => intro m _; exact ⟨m, rfl⟩
  | cons n rest ih =>
    intro m hall
    obtain ⟨nm, sp, g, rfl, hsplit, hk⟩ := hall n (List.mem_cons_self n rest)
    have step : addGeneTips (some nm :: rest) m
        = addGeneTips rest (dictAppendO m (some sp) sp) := by
      simp [addGeneTips, hsplit, hk]
    rw [step]
    apply ih
    intro n2 hn2
    obtain ⟨nm2, sp2, g2, he, hs2, hk2⟩ := hall n2 (List.mem_cons_of_mem _ hn2)
    exact ⟨nm2, sp2, g2, he, hs2, by rw [hasKeyO_dictAppendO]; exact hk2⟩

theorem hasKey_append (m : List (String × List String)) (e : String × List String)
    (k : String) :
    hasKey (m ++ [e]) k = (hasKey m k || decide (e.1 = k)) := by
  induction m with
  | nil => simp [hasKey]
  | cons p rest ih =>
    by_cases hp : p.1 = k
    · simp [hasKey, hp]
    · simp [hasKey, hp, ih]

theorem hasKey_specToolsFrom (vals : Nat → List String) :
    ∀ (ts : List String) (j : Nat) (t : String),
      hasKey (specToolsFrom vals j ts) t = true ↔ t ∈ ts := by
  intro ts
  induction ts with
  | nil => intro j t; simp [specToolsFrom, hasKey]
  | cons u rest ih =>
    intro j t
    by_cases hu : u = t
    · simp [specToolsFrom, hasKey, hu]
    · simp only [specToolsFrom, hasKey, hu, Bool.false_eq_true, if_false, List.mem_cons,
        ih (j + 1) t]
      constructor
      · exact Or.inr
      · rintro (h1 | h2)
        · exact absurd h1.symm hu
        · exact h2

theorem dictAppend_not_mem (vals : Nat → List String) (k v : String) :
    ∀ (ts : List String) (j : Nat), k ∉ ts →
      dictAppend (specToolsFrom vals j ts) k v = specToolsFrom vals j ts := by
  intro ts
  induction ts with
  | nil => intro j _; rfl
  | cons u rest ih =>
    intro j hk
    have hu : ¬ (u = k) := fun hc => hk (hc ▸ List.mem_cons_self u rest)
    simp only [specToolsFrom, dictAppend, hu, if_false]
    rw [ih (j + 1) (fun hc => hk (List.mem_cons_of_mem u hc))]

theorem specToolsFrom_congr_ge (vals vals2 : Nat → List String) :
    ∀ (ts : List String) (j : Nat), (∀ m, j ≤ m → vals m = vals2 m) →
      specToolsFrom vals j ts = specToolsFrom vals2 j ts := by
  intro ts
  induction ts with
  | nil => intro j _; rfl
  | cons u rest ih =>
    intro j h
    simp only [specToolsFrom]
    rw [h j (Nat.le_refl j), ih (j + 1) (fun m hm => h m (Nat.le_of_succ_le hm))]

/-- With distinct keys, the key-based `dict[t].append(v)` is the positional
update of column `k`. -/
theorem dictAppend_specToolsFrom (vals : Nat → List String) (v : String) :
    ∀ (ts : List String) (j k : Nat) (t : String),
      ts.Nodup → ts.get? k = some t →
      dictAppend (specToolsFrom vals j ts) t v
        = specToolsFrom (fun m => if m = j + k then vals m ++ [v] else vals m) j ts := by
  intro ts
  induction ts with
  | nil => intro j k t _ hget; simp at hget
  | cons u rest ih =>
    intro j k t hnd hget
    rw [List.nodup_cons] at hnd
    by_cases hu : u = t
    · subst hu
      have hk0 : k = 0 := by
        cases k with
        | zero => rfl
        | succ k2 =>
          exfalso
          exact hnd.1 (List.get?_mem (by simpa using hget))
      subst hk0
      simp only [specToolsFrom, dictAppend, if_pos rfl]
      rw [dictAppend_not_mem vals u v rest (j + 1) hnd.1]
      rw [specToolsFrom_congr_ge vals
        (fun m => if m = j + 0 then vals m ++ [v] else vals m) rest (j + 1)
        (fun m hm => by
          show vals m = if m = j + 0 then vals m ++ [v] else vals m
          rw [if_neg (by omega)])]
      simp
    · cases k with
      | zero =>
        rw [List.get?_cons_zero] at hget
        exact absurd (Option.some.inj hget) hu
      | succ k2 =>
        rw [List.get?_cons_succ] at hget
        simp only [specToolsFrom, dictAppend, hu, if_false]
        rw [ih (j + 1) k2 t hnd.2 hget]
        rw [if_neg (by omega)]
        simp only [show j + 1 + k2 = j + (k2 + 1) from by omega]

theorem detects_nil (j : Nat) : detects [] j = false := by
  cases j <;> rfl

theorem detects_cons_succ (fl : String) (rest : List String) (k : Nat) :
    detects (fl :: rest) (k + 1) = detects rest k := rfl

/-- One step of `obsFlags` over a well-keyed state: every remaining positive
flag appends the gene to its column's list. -/
theorem obsFlags_spec (ids : List String) (hnd : ids.Nodup) (gene : String) :
    ∀ (flags : List String) (i : Nat) (vals : Nat → List String),
      i + flags.length = ids.length →
      (∀ fl ∈ flags, (pyInt fl).isOk = true) →
      obsFlags flags i gene ⟨specToolsFrom vals 0 ids, ids⟩
        = .ok ⟨specToolsFrom
            (fun j => if i ≤ j ∧ detects flags (j - i) = true then vals j ++ [gene]
                      else vals j) 0 ids, ids⟩ := by
  intro flags
  induction flags with
  | nil =>
    intro i vals _ _
    have hB : specToolsFrom
        (fun j => if i ≤ j ∧ detects [] (j - i) = true then vals j ++ [gene] else vals j)
        0 ids = specToolsFrom vals 0 ids := by
      apply specToolsFrom_congr_ge
      intro m _
      rw [detects_nil]
      simp
    simp only [obsFlags, hB]
  | cons fl rest ih =>
    intro i vals hlen hok
    have hfl : (pyInt fl).isOk = true := hok fl (List.mem_cons_self _ _)
    cases hint : pyInt fl with
    | error e =>
      rw [hint] at hfl
      exact absurd hfl (by simp [Except.isOk, Except.toBool])
    | ok n =>
      simp only [obsFlags, hint]
      have hlen2 : (i + 1) + rest.length = ids.length := by
        simp only [List.length_cons] at hlen
        omega
      have hokrest : ∀ f2 ∈ rest, (pyInt f2).isOk = true :=
        fun f2 hf2 => hok f2 (List.mem_cons_of_mem _ hf2)
      by_cases hpos : 0 < n
      · rw [if_pos hpos]
        have hi : i < ids.length := by
          simp only [List.length_cons] at hlen
          omega
        obtain ⟨t, hget⟩ : ∃ t, ids.get? i = some t := by
          rw [List.get?_eq_get hi]
          exact ⟨_, rfl⟩
        have hmem : t ∈ ids := List.get?_mem hget
        simp only [hget]
        rw [if_pos ((hasKey_specToolsFrom vals ids 0 t).mpr hmem)]
        simp only [dictAppend_specToolsFrom vals gene ids 0 i t hnd hget]
        rw [ih (i + 1) (fun m => if m = 0 + i then vals m ++ [gene] else vals m)
          hlen2 hokrest]
        have hAB : specToolsFrom
            (fun j => if (i + 1) ≤ j ∧ detects rest (j - (i + 1)) = true
              then (if j = 0 + i then vals j ++ [gene] else vals j) ++ [gene]
              else (if j = 0 + i then vals j ++ [gene] else vals j)) 0 ids
            = specToolsFrom
            (fun j => if i ≤ j ∧ detects (fl :: rest) (j - i) = true
              then vals j ++ [gene] else vals j) 0 ids := by
          apply specToolsFrom_congr_ge
          intro m _
          rcases Nat.lt_trichotomy m i with hlt | rfl | hgt
          · rw [if_neg (fun hc => absurd hc.1 (by omega)), if_neg (by omega),
              if_neg (fun hc => absurd hc.1 (by omega))]
          · have hcond : m ≤ m ∧ detects (fl :: rest) (m - m) = true := by
              refine ⟨Nat.le_refl m, ?_⟩
              rw [Nat.sub_self]
              simp [detects, hint, hpos]
            rw [if_neg (fun hc => absurd hc.1 (by omega)), if_pos (by omega),
              if_pos hcond]
          · have hsub : m - i = (m - (i + 1)) + 1 := by omega
            rw [hsub, detects_cons_succ]
            by_cases hd : detects rest (m - (i + 1)) = true
            · rw [if_pos ⟨by omega, hd⟩, if_neg (by omega), if_pos ⟨by omega, hd⟩]
            · rw [if_neg (fun hc => absurd hc.2 hd), if_neg (by omega),
                if_neg (fun hc => absurd hc.2 hd)]
        rw [hAB]
      · rw [if_neg hpos]
        rw [ih (i + 1) vals hlen2 hokrest]
        have hAB : specToolsFrom
            (fun j => if (i + 1) ≤ j ∧ detects rest (j - (i + 1)) = true
              then vals j ++ [gene] else vals j) 0 ids
            = specToolsFrom
            (fun j => if i ≤ j ∧ detects (fl :: rest) (j - i) = true
              then vals j ++ [gene] else vals j) 0 ids := by
          apply specToolsFrom_congr_ge
          intro m _
          rcases Nat.lt_trichotomy m i with hlt | rfl | hgt
          · rw [if_neg (fun hc => absurd hc.1 (by omega)),
              if_neg (fun hc => absurd hc.1 (by omega))]
          · have hdet0 : detects (fl :: rest) (m - m) = false := by
              rw [Nat.sub_self]
              simp [detects, hint, hpos]
            rw [if_neg (fun hc => absurd hc.1 (by omega)),
              if_neg (fun hc => by rw [hdet0] at hc; exact Bool.false_ne_true hc.2)]
          · have hsub : m - i = (m - (i + 1)) + 1 := by omega
            rw [hsub, detects_cons_succ]
            by_cases hd : detects rest (m - (i + 1)) = true
            · rw [if_pos ⟨by omega, hd⟩, if_pos ⟨by omega, hd⟩]
            · rw [if_neg (fun hc => absurd hc.2 hd),
                if_neg (fun hc => absurd hc.2 hd)]
        rw [hAB]

/-- One well-formed data row appended to the summary state. -/
theorem obsLine_spec (toolNames : List String) (hnd : toolNames.Nodup)
    (rows : List (String × List String)) (line : String)
    (hok : obs_line_ok toolNames.length line) :
    obsLine ⟨observed_spec toolNames rows, toolNames⟩ line
      = .ok ⟨observed_spec toolNames (rows ++ [rowOf line]), toolNames⟩ := by
  simp only [obs_line_ok] at hok
  obtain ⟨hhash, hlen, hflags⟩ := hok
  obtain ⟨a, b, flags, hfe⟩ :
      ∃ a b flags, pySplit "\t" (pyStrip line) = a :: b :: flags := by
    cases h1 : pySplit "\t" (pyStrip line) with
    | nil => rw [h1] at hlen; simp only [List.length_nil] at hlen; omega
    | cons a tl =>
      cases tl with
      | nil =>
        rw [h1] at hlen
        simp only [List.length_cons, List.length_nil] at hlen
        omega
      | cons b fs => exact ⟨a, b, fs, rfl⟩
  rw [hfe] at hhash hlen hflags
  simp only [List.headD_cons] at hhash
  simp only [List.length_cons] at hlen
  simp only [List.drop_succ_cons, List.drop_zero] at hflags
  have hlen2 : flags.length = toolNames.length := by omega
  have hrow : rowOf line = (b, flags) := by
    simp [rowOf, hfe]
  simp only [obsLine, hfe, List.headD_cons, hhash, Bool.false_eq_true, if_false,
    List.get?_cons_succ, List.get?_cons_zero, List.drop_succ_cons, List.drop_zero]
  simp only [observed_spec]
  rw [obsFlags_spec toolNames hnd b flags 0 (detectedGenes rows) (by omega) hflags]
  have hpt : specToolsFrom
      (fun j => if 0 ≤ j ∧ detects flags (j - 0) = true
        then detectedGenes rows j ++ [b] else detectedGenes rows j) 0 toolNames
      = specToolsFrom (detectedGenes (rows ++ [rowOf line])) 0 toolNames := by
    apply specToolsFrom_congr_ge
    intro m _
    rw [hrow]
    simp only [Nat.sub_zero, detectedGenes, List.filterMap_append]
    by_cases hd : detects flags m = true
    · rw [if_pos ⟨Nat.zero_le m, hd⟩]
      simp [hd]
    · rw [if_neg (by simp [hd])]
      simp [hd]
  rw [hpt]

/-- The data-row loop, in closed form. -/
theorem obsLines_spec (toolNames : List String) (hnd : toolNames.Nodup) :
    ∀ (ls : List String) (rows : List (String × List String)),
      (∀ l ∈ ls, obs_line_ok toolNames.length l) →
      obsLines ls ⟨observed_spec toolNames rows, toolNames⟩
        = .ok ⟨observed_spec toolNames (rows ++ ls.map rowOf), toolNames⟩ := by
  intro ls
  induction ls with
  | nil => intro rows _; simp [obsLines]
  | cons l rest ih =>
    intro rows hall
    simp only [obsLines]
    rw [obsLine_spec toolNames hnd rows l (hall l (List.mem_cons_self _ _))]
    show obsLines rest ⟨observed_spec toolNames (rows ++ [rowOf l]), toolNames⟩ = _
    rw [ih (rows ++ [rowOf l]) (fun x hx => hall x (List.mem_cons_of_mem _ hx))]
    simp [List.append_assoc]

/-- The header loop, in closed form: one fresh empty dict entry per tool
column, keys and `tools_id` in column order. -/
theorem obsHeader_spec : ∀ (ts : List String) (m : List (String × List String))
    (ids : List String),
    ts.Nodup → (∀ t ∈ ts, hasKey m t = false) →
    obsHeader ts ⟨m, ids⟩ = ⟨m ++ ts.map (fun t => (t, [])), ids ++ ts⟩ := by
  intro ts
  induction ts with
  | nil => intro m ids _ _; simp [obsHeader]
  | cons t rest ih =>
    intro m ids hnd hfresh
    rw [List.nodup_cons] at hnd
    have hk : hasKey m t = false := hfresh t (List.mem_cons_self _ _)
    simp only [obsHeader, hk, Bool.false_eq_true, if_false]
    rw [ih (m ++ [(t, [])]) (ids ++ [t]) hnd.2 ?_]
    · simp
    · intro u hu
      rw [hasKey_append, hfresh u (List.mem_cons_of_mem _ hu)]
      simp only [Bool.false_or, decide_eq_false_iff_not]
      exact fun hc => hnd.1 (hc ▸ hu)

theorem specToolsFrom_nilvals : ∀ (ts : List String) (j : Nat),
    specToolsFrom (fun _ => []) j ts = ts.map (fun t => (t, [])) := by
  intro ts
  induction ts with
  | nil => intro j; rfl
  | cons t rest ih => intro j; simp [specToolsFrom, ih]

theorem observed_spec_nil (toolNames : List String) :
    observed_spec toolNames [] = toolNames.map (fun t => (t, [])) := by
  unfold observed_spec
  rw [specToolsFrom_congr_ge (detectedGenes []) (fun _ => []) toolNames 0
    (fun j _ => rfl)]
  exact specToolsFrom_nilvals toolNames 0

/-- The accuracy loop aborts with an error exactly when some tool of the
summary has a non-empty detection set and a zero denominator. -/
theorem accuracy_loop_error_iff (exp_s : Finset String) :
    ∀ observed : List (String × List String),
      (accuracy_loop exp_s observed).2.isSome = true
        ↔ ∃ e ∈ observed, zero_denominator exp_s e := by
  intro observed
  induction observed with
  | nil => simp [accuracy_loop]
  | cons e rest ih =>
    obtain ⟨tool, genes⟩ := e
    by_cases hobs : (genes.toFinset : Finset String) = ∅
    · simp only [accuracy_loop, hobs, if_pos, List.exists_mem_cons_iff, ih]
      have hnot : ¬ zero_denominator exp_s (tool, genes) := by
        simp [zero_denominator, hobs]
      simp [hnot]
    · by_cases h1 : ((genes.toFinset : Finset String) ∩ exp_s).card
          + ((genes.toFinset : Finset String) \ exp_s).card = 0
      · have hz : zero_denominator exp_s (tool, genes) := ⟨hobs, Or.inl h1⟩
        simp [accuracy_loop, hobs, h1, List.exists_mem_cons_iff, hz]
      · by_cases h2 : ((genes.toFinset : Finset String) ∩ exp_s).card
            + (exp_s \ (genes.toFinset : Finset String)).card = 0
        · have hz : zero_denominator exp_s (tool, genes) := ⟨hobs, Or.inr (Or.inl h2)⟩
          simp [accuracy_loop, hobs, h1, h2, List.exists_mem_cons_iff, hz]
        · by_cases h3 : (fadd (((genes.toFinset : Finset String) ∩ exp_s).card,
              ((genes.toFinset : Finset String) ∩ exp_s).card
                + ((genes.toFinset : Finset String) \ exp_s).card)
              (((genes.toFinset : Finset String) ∩ exp_s).card,
              ((genes.toFinset : Finset String) ∩ exp_s).card
                + (exp_s \ (genes.toFinset : Finset String)).card)).1 = 0
          · have hz : zero_denominator exp_s (tool, genes) :=
              ⟨hobs, Or.inr (Or.inr h3)⟩
            have h3s := h3
            simp only [Finset.card_inter_add_card_sdiff] at h3s
            simp [accuracy_loop, hobs, h1, h2, h3, h3s, List.exists_mem_cons_iff, hz]
          · have hnot : ¬ zero_denominator exp_s (tool, genes) := by
              simp only [zero_denominator, ne_eq, not_and, not_or]
              exact fun _ => ⟨h1, h2, h3⟩
            have h3s := h3
            simp only [Finset.card_inter_add_card_sdiff] at h3s
            simp [accuracy_loop, hobs, h1, h2, h3, h3s, List.exists_mem_cons_iff, hnot, ih]

/-- A tool entry whose gene list has an empty detection set is skipped by the
accuracy loop, wherever it sits in the summary. -/
theorem accuracy_loop_skip (exp_s : Finset String) (tool : String) :
    ∀ (pre post : List (String × List String)),
      accuracy_loop exp_s (pre ++ (tool, []) :: post)
        = accuracy_loop exp_s (pre ++ post) := by
  intro pre
  induction pre with
  | nil => intro post; simp [accuracy_loop]
  | cons e pre ih =>
    intro post
    obtain ⟨t2, g2⟩ := e
    simp only [List.cons_append, accuracy_loop, List.append_eq, ih]

/-- C2 (code evaluated at the failing input): for species tree with leaves
`sp1`, `sp2` and gene tree with leaves `sp1 g1`, `sp2 g2`, the Jane-4
reformatter builds the mapping string `"sp1:sp1, sp2:sp2"`, not the
`"sp1:g1, sp2:g2"` of the claim and of `species_gene_mapping`'s docstring:
line 103 of `reformat_input.py` appends the species token instead of the
gene token. -/
theorem jane4_mapping_scenario :
    jane4_mapping_str scGeneTree scSpeciesTree = .ok "sp1:sp1, sp2:sp2"
    ∧ jane4_mapping_str scGeneTree scSpeciesTree ≠ .ok "sp1:g1, sp2:g2" := by
  decide

/-- C5 (counterexample): trimming the literal label `"speciesA_gene1"` does
not yield `"speciesA"`: `str.split()` splits on whitespace, not on `_`, so
the label is returned unchanged. -/
theorem trim_leaf_label_underscore_counterexample :
    trim_leaf_label "speciesA_gene1" = .ok "speciesA_gene1"
    ∧ trim_leaf_label "speciesA_gene1" ≠ .ok "speciesA" := by
  decide

/-- C5 (amended): trimming keeps the first whitespace-separated token of a
leaf label — `"speciesA gene1"` yields `"speciesA"` — and trimming is
idempotent: re-trimming any successfully trimmed label is a no-op. -/
theorem trim_leaf_label_first_token_idem :
    trim_leaf_label "speciesA gene1" = .ok "speciesA"
    ∧ ∀ s t : String, trim_leaf_label s = .ok t → trim_leaf_label t = .ok t := by
  constructor
  · decide
  · intro s t h
    unfold trim_leaf_label at h
    cases hs : pySplitWs s with
    | nil => rw [hs] at h; exact absurd h (by simp)
    | cons tok rest =>
      rw [hs] at h
      have htok : t = tok := (Except.ok.inj h).symm
      subst htok
      have hmem : t ∈ pySplitWs s := by rw [hs]; exact List.mem_cons_self t rest
      unfold pySplitWs at hmem
      rcases List.mem_map.mp hmem with ⟨tl, htl, hmk⟩
      have hfacts := pySplitWsAux_token_facts s.data [] (by simp) tl htl
      have hdata : t.data = tl := by rw [← hmk]
      unfold trim_leaf_label pySplitWs
      rw [hdata, pySplitWsAux_all_nonws tl [] hfacts.2]
      have : ¬([] = ([] : List Char) ∧ tl = []) := fun hc => hfacts.1 hc.2
      rw [if_neg this]
      simp only [List.reverse_nil, List.nil_append, List.map_cons, List.map_nil]
      have : String.mk tl = t := by rw [← hdata]
      rw [this]

/-- C5 (witness for the amended theorem): re-trimming the trimmed label
`"speciesA"` is a no-op. -/
theorem trim_leaf_label_first_token_idem_witness :
    trim_leaf_label "speciesA" = .ok "speciesA" :=
  trim_leaf_label_first_token_idem.2 "speciesA gene1" "speciesA"
    trim_leaf_label_first_token_idem.1

/-- C7 (counterexample): a T-REX log with two anchor lines (counts 3 and 5)
makes the parser print `"35"` — the concatenation of every match — not the
first match `"3"`. -/
theorem parse_trex_first_match_counterexample :
    parse_trex ["hgt : number of HGT(s) found = 3",
                "hgt : number of HGT(s) found = 5"] = "35"
    ∧ ("35" : String) ≠ "3" := by
  decide

/-- C7 (amended): the T-REX parser prints, for every line containing the
anchor, in order, the text after the anchor's first occurrence (up to its
next occurrence, stripped), all concatenated; it prints the sentinel `"NaN"`
exactly when no line contains the anchor.  In particular a log containing
`"hgt : number of HGT(s) found = 3"` (and no other anchor line) prints
`"3"`, and an anchor-free log prints `"NaN"`. -/
theorem parse_trex_all_matches :
    (∀ lines : List String,
      parse_trex lines =
        if (lines.filter (fun l => pyIn trex_anchor l)).isEmpty then "NaN"
        else concatS ((lines.filter (fun l => pyIn trex_anchor l)).map trex_extract))
    ∧ parse_trex ["hgt : number of HGT(s) found = 3"] = "3"
    ∧ parse_trex ["T-REX log without the anchor"] = "NaN" := by
  refine ⟨fun lines => ?_, by decide, by decide⟩
  show (let res := parse_trex_loop lines "" false
        if res.2 then res.1 else "NaN") = _
  rw [parse_trex_loop_spec]
  cases hE : (lines.filter (fun l => pyIn trex_anchor l)).isEmpty with
  | true => simp [hE]
  | false => simp [hE, str_nil_append]

/-- C8 (counterexample): the method identifier `consel` is in the enumerated
set and has no implemented extraction function, yet selecting it does not
terminate silently: the dispatch calls `parse_consel`, which is defined
nowhere in `parse_output.py`, raising `NameError`. -/
theorem parse_output_consel_counterexample :
    parse_output_main "consel" ["anything"] ≠ MainResult.noOutput
    ∧ parse_output_main "consel" ["anything"]
        = MainResult.exn "NameError: name parse_consel is not defined" := by
  decide

/-- C8 (amended): for the six enumerated identifiers other than the four
implemented ones (`trex`, `ranger-dtl`, `riata-hgt`, `jane4`) and other than
`consel`, the dispatch matches no branch and terminates silently, printing
nothing and raising nothing; `consel` instead raises `NameError`. -/
theorem parse_output_unimplemented_silent (method : String)
    (hm : method ∈ ["darkhorse", "wn-svm", "genemark", "hgtector",
                    "distance-method", "tree-puzzle"]) (lines : List String) :
    parse_output_main method lines = MainResult.noOutput := by
  fin_cases hm <;> rfl

/-- C8 (witness): the `darkhorse` identifier produces no output on a sample
log. -/
theorem parse_output_unimplemented_silent_witness :
    parse_output_main "darkhorse" ["some log line"] = MainResult.noOutput :=
  parse_output_unimplemented_silent "darkhorse" (by decide) ["some log line"]

/-- C9 (code evaluated at the failing input): on the scenario trees,
`reformat_trex` raises `NameError` — `join_trees(tmp_gene_tree, ...)` and
`remove(tmp_gene_tree_fp)` reference names that are defined nowhere in the
module — instead of writing the species+trimmed-gene concatenation and
removing the temporary file. -/
theorem reformat_trex_name_error :
    reformat_trex scGeneTree scSpeciesTree "trex_input.nwk"
      = .error "NameError: name tmp_gene_tree is not defined" := by
  decide

/-- C1: whenever no processed tool hits a zero denominator,
`compute_accuracy` writes, for each tool with a non-empty detection set, in
order, one tab-separated line holding the tool name and precision
`tp/(tp+fp)`, recall `tp/(tp+fn)` and F1 `2·p·r/(p+r)` rounded to two
decimals, with `tp = |detected ∩ expected|`, `fp = |detected − expected|`,
`fn = |expected − detected|` — and completes without error. -/
theorem compute_accuracy_contract (expected : List Transfer)
    (observed : List (String × List String))
    (h : ∀ e ∈ observed, ¬ zero_denominator (expectedGenes expected) e) :
    compute_accuracy expected observed
      = (observed.filterMap (accuracy_spec_line (expectedGenes expected)), none) :=
  accuracy_loop_ok _ observed h

/-- C6 (counterexample): a gene tree whose only leaf is labelled `"sp1"`
(one token) against a species tree with the unique leaf `sp1`: no species
label repeats and no gene leaf has a species token absent from the species
tree, yet `species_gene_mapping` raises — the two-token unpacking
`species, gene = node.name.split()` fails — instead of returning a
mapping. -/
theorem species_gene_mapping_unpack_counterexample :
    species_gene_mapping oneTokenGeneTree oneSpeciesTree
        = .error "ValueError: too many values to unpack"
    ∧ Tree.tipNames oneSpeciesTree = [some "sp1"]
    ∧ (Tree.tipNames oneSpeciesTree).Nodup
    ∧ Tree.tipNames oneTokenGeneTree = [some "sp1"]
    ∧ pySplitWs "sp1" = ["sp1"]
    ∧ some "sp1" ∈ Tree.tipNames oneSpeciesTree := by
  decide

/-- C6 (amended): `species_gene_mapping` fails with a `ValueError` for every
species tree with a repeated leaf label, and for every gene tree containing
a two-token leaf whose species token is absent from the species tree; it
returns a mapping without error when the species labels are unique and
every gene leaf label splits into exactly two whitespace-separated tokens
whose species token occurs in the species tree. -/
theorem species_gene_mapping_validation :
    (∀ gene_tree species_tree : Tree, ¬ (Tree.tipNames species_tree).Nodup →
      ∃ e, species_gene_mapping gene_tree species_tree = .error e)
    ∧ (∀ gene_tree species_tree : Tree, ∀ nm sp g : String,
        some nm ∈ Tree.tipNames gene_tree → pySplitWs nm = [sp, g] →
        some sp ∉ Tree.tipNames species_tree →
        ∃ e, species_gene_mapping gene_tree species_tree = .error e)
    ∧ (∀ gene_tree species_tree : Tree, (Tree.tipNames species_tree).Nodup →
        (∀ n ∈ Tree.tipNames gene_tree, ∃ nm sp g : String, n = some nm
          ∧ pySplitWs nm = [sp, g] ∧ some sp ∈ Tree.tipNames species_tree) →
        ∃ m, species_gene_mapping gene_tree species_tree = .ok m) := by
  refine ⟨?_, ?_, ?_⟩
  · intro gt st hnd
    obtain ⟨e, he⟩ := addSpeciesTips_error st.tipNames [] (Or.inl hnd)
    exact ⟨e, by simp [species_gene_mapping, he]⟩
  · intro gt st nm sp g hmem hsplit habs
    cases hsp : addSpeciesTips st.tipNames [] with
    | error e => exact ⟨e, by simp [species_gene_mapping, hsp]⟩
    | ok m =>
      have hkeys := addSpeciesTips_ok_keys st.tipNames [] m hsp (some sp)
      have hkf : hasKeyO m (some sp) = false := by
        rw [Bool.eq_false_iff]
        intro hc
        rcases hkeys.mp hc with h1 | h2
        · simp [hasKeyO] at h1
        · exact habs h2
      obtain ⟨e, he⟩ := addGeneTips_error gt.tipNames m sp g ⟨nm, hmem, hsplit, hkf⟩
      exact ⟨e, by simp [species_gene_mapping, hsp, he]⟩
  · intro gt st hnd hall
    have hsp := addSpeciesTips_ok st.tipNames [] hnd (fun x _ => rfl)
    rw [List.nil_append] at hsp
    have hall2 : ∀ n ∈ Tree.tipNames gt, ∃ nm sp g : String, n = some nm
        ∧ pySplitWs nm = [sp, g]
        ∧ hasKeyO (st.tipNames.map (fun n2 => (n2, []))) (some sp) = true := by
      intro n hn
      obtain ⟨nm, sp, g, he, hs2, hmem⟩ := hall n hn
      exact ⟨nm, sp, g, he, hs2,
        (hasKeyO_map_empty st.tipNames (some sp)).mpr hmem⟩
    obtain ⟨m2, hm2⟩ :=
      addGeneTips_ok gt.tipNames (st.tipNames.map (fun n2 => (n2, []))) hall2
    exact ⟨m2, by simp [species_gene_mapping, hsp, hm2]⟩

/-- C6 (witness): the repeated label `sp1`,`sp1` fails; a gene leaf naming
the unknown species `sp9` fails; the well-formed scenario trees succeed. -/
theorem species_gene_mapping_validation_witness :
    (∃ e, species_gene_mapping scGeneTree dupSpeciesTree = .error e)
    ∧ (∃ e, species_gene_mapping unknownGeneTree scSpeciesTree = .error e)
    ∧ (∃ m, species_gene_mapping scGeneTree scSpeciesTree = .ok m) := by
  refine ⟨species_gene_mapping_validation.1 scGeneTree dupSpeciesTree (by decide),
          species_gene_mapping_validation.2.1 unknownGeneTree scSpeciesTree
            "sp9 g1" "sp9" "g1" (by decide) (by decide) (by decide),
          species_gene_mapping_validation.2.2 scGeneTree scSpeciesTree (by decide) ?_⟩
  intro n hn
  have htips : Tree.tipNames scGeneTree = [some "sp1 g1", some "sp2 g2"] := by decide
  rw [htips] at hn
  rcases List.mem_cons.mp hn with rfl | hn2
  · exact ⟨"sp1 g1", "sp1", "g1", rfl, by decide, by decide⟩
  · rcases List.mem_cons.mp hn2 with rfl | hn3
    · exact ⟨"sp2 g2", "sp2", "g2", rfl, by decide, by decide⟩
    · exact absurd hn3 (List.not_mem_nil n)

/-- C1 (witness, the spec's Scenario 1): donated genes `{g1}` and
`observed = {toolX: [g1, g2]}` give `tp=1`, `fp=1`, `fn=0` and the single
output line `toolX→0.50→1.00→0.67`. -/
theorem compute_accuracy_contract_witness :
    (∀ e ∈ [("toolX", ["g1", "g2"])],
      ¬ zero_denominator (expectedGenes [("orgA", "g1", "orgB", "g1c")]) e)
    ∧ compute_accuracy [("orgA", "g1", "orgB", "g1c")] [("toolX", ["g1", "g2"])]
        = (["toolX\t0.50\t1.00\t0.67\n"], none)
    ∧ ((["g1", "g2"].toFinset : Finset String)
          ∩ expectedGenes [("orgA", "g1", "orgB", "g1c")]).card = 1
    ∧ ((["g1", "g2"].toFinset : Finset String)
          \ expectedGenes [("orgA", "g1", "orgB", "g1c")]).card = 1
    ∧ (expectedGenes [("orgA", "g1", "orgB", "g1c")]
          \ (["g1", "g2"].toFinset : Finset String)).card = 0 :=
  ⟨by decide,
   (compute_accuracy_contract [("orgA", "g1", "orgB", "g1c")]
      [("toolX", ["g1", "g2"])] (by decide)).trans (by decide),
   by decide, by decide, by decide⟩

/-- C3: `compute_accuracy` raises (a `ZeroDivisionError`) exactly when some
tool with a non-empty detection set has a zero denominator — `tp+fp = 0`, or
`tp+fn = 0`, or `p+r = 0` — and otherwise terminates normally, having
printed the metric lines. -/
theorem compute_accuracy_error_iff (expected : List Transfer)
    (observed : List (String × List String)) :
    (compute_accuracy expected observed).2.isSome = true
      ↔ ∃ e ∈ observed, zero_denominator (expectedGenes expected) e :=
  accuracy_loop_error_iff _ observed

/-- C4: a tool whose detection set is empty is skipped entirely: the output
of `compute_accuracy` with that tool present is identical — line for line,
and in error behaviour — to the output without it, wherever the tool sits in
the summary. -/
theorem compute_accuracy_skips_empty (expected : List Transfer) (tool : String)
    (genes : List String) (hg : (genes.toFinset : Finset String) = ∅)
    (pre post : List (String × List String)) :
    compute_accuracy expected (pre ++ (tool, genes) :: post)
      = compute_accuracy expected (pre ++ post) := by
  have hnil : genes = [] := by
    cases genes with
    | nil => rfl
    | cons g gs => simp at hg
  subst hnil
  exact accuracy_loop_skip _ tool pre post

/-- C4 (witness, the spec's Scenario 2): a tool with an empty observed set
is omitted from the output entirely — even when its processing would have
divided by zero (empty expected set). -/
theorem compute_accuracy_skips_empty_witness :
    (([] : List String).toFinset : Finset String) = ∅
    ∧ compute_accuracy [] [("toolY", [])] = compute_accuracy [] []
    ∧ compute_accuracy [] [("toolY", [])] = ([], none) :=
  ⟨by decide,
   compute_accuracy_skips_empty [] "toolY" [] (by decide) [] [],
   by decide⟩

/-- C10: on a well-formed summary table — an arbitrary first line, then a
`#`-led header row naming the tool columns, then data rows each carrying one
integer flag per tool — `parse_observed_transfers` skips the first line
unconditionally, takes each gene id from the second column, and records a
gene as detected by a tool exactly when the integer in that tool's column is
strictly greater than zero. -/
theorem parse_observed_transfers_spec
    (first header : String) (dataLines : List String)
    (f0 f1 : String) (toolNames : List String)
    (hheader : pySplit "\t" (pyStrip header) = f0 :: f1 :: toolNames)
    (hhash : pyStartsWith "#" f0 = true)
    (hnd : toolNames.Nodup)
    (hdata : ∀ l ∈ dataLines, obs_line_ok toolNames.length l) :
    parse_observed_transfers (first :: header :: dataLines)
      = .ok (observed_spec toolNames (dataLines.map rowOf)) := by
  have hline1 : obsLine ⟨[], []⟩ header
      = .ok ⟨observed_spec toolNames [], toolNames⟩ := by
    simp only [obsLine, hheader, List.headD_cons, hhash, if_true,
      List.drop_succ_cons, List.drop_zero]
    rw [obsHeader_spec toolNames [] [] hnd (fun t _ => rfl)]
    rw [observed_spec_nil]
    simp
  simp only [parse_observed_transfers, obsLines]
  rw [hline1]
  show (match obsLines dataLines ⟨observed_spec toolNames [], toolNames⟩ with
        | Except.error e => (Except.error e : Except String (List (String × List String)))
        | Except.ok st => Except.ok st.tools) = _
  rw [obsLines_spec toolNames hnd dataLines [] hdata]
  simp

/-- C10 (witness): the docstring's table shape, with flags `2`, `1`, `0` and
`-1`: the first line is skipped, gene ids come from the second column, and
exactly the strictly positive flags (`2` as well as `1`) count as
detections. -/
theorem parse_observed_transfers_spec_witness :
    (pySplit "\t" (pyStrip "#\tgene ID\tT-REX\tRANGER-DTL")
        = "#" :: "gene ID" :: ["T-REX", "RANGER-DTL"])
    ∧ pyStartsWith "#" "#" = true
    ∧ (["T-REX", "RANGER-DTL"] : List String).Nodup
    ∧ (∀ l ∈ ["0\t1000\t2\t0", "1\t1001\t1\t0", "2\t1002\t0\t-1", "3\t1003\t0\t3"],
        obs_line_ok (["T-REX", "RANGER-DTL"] : List String).length l)
    ∧ parse_observed_transfers
        ["#number of HGTs detected",
         "#\tgene ID\tT-REX\tRANGER-DTL",
         "0\t1000\t2\t0", "1\t1001\t1\t0", "2\t1002\t0\t-1", "3\t1003\t0\t3"]
      = .ok [("T-REX", ["1000", "1001"]), ("RANGER-DTL", ["1003"])] :=
  ⟨by decide, by decide, by decide, by decide,
   (parse_observed_transfers_spec "#number of HGTs detected"
      "#\tgene ID\tT-REX\tRANGER-DTL"
      ["0\t1000\t2\t0", "1\t1001\t1\t0", "2\t1002\t0\t-1", "3\t1003\t0\t3"]
      "#" "gene ID" ["T-REX", "RANGER-DTL"]
      (by decide) (by decide) (by decide) (by decide)).trans (by decide)⟩

end Hgt
